import Mathlib

/-!
Shallow embedding of the `quadtree-rs` point quadtree
(`src/point.rs`, `src/rectangle.rs`, `src/node.rs`, `src/quadtree.rs`),
with coordinates idealised as rationals.  All definitions are translated
from the Rust source; the one exception is `Spatial`, whose source file
(`src/spatial.rs`) is not present and which is modelled from the spec.
-/

attribute [local semireducible] Rat.add Rat.sub Rat.mul Rat.inv

namespace Quadtree

/-- A simple 2-dimensional point (`src/point.rs`); `f32` coordinates are
idealised as rationals. -/
structure Point where
  x : ℚ
  y : ℚ
deriving DecidableEq

/-- Squared euclidean distance between two points (`Point::squared_distance`). -/
def Point.squared_distance (a b : Point) : ℚ :=
  (a.x - b.x) ^ 2 + (a.y - b.y) ^ 2

/-- A rectangle anchored at its bottom-left corner (`src/rectangle.rs`). -/
structure Rectangle where
  anchor : Point
  width : ℚ
  height : ℚ
deriving DecidableEq

/-- The four quadrant identifiers (`enum Quadrant`). -/
inductive Quadrant where
  | BottomLeft
  | BottomRight
  | TopRight
  | TopLeft
deriving DecidableEq

/-- The three-way relation between two rectangles (`enum RectangleRelation`). -/
inductive RectangleRelation where
  | Disjoint
  | Intersection
  | Containment (selfContainsOther : Bool)
deriving DecidableEq

namespace Rectangle

/-- `Rectangle::new` -/
def new (anchor : Point) (width height : ℚ) : Rectangle :=
  ⟨anchor, width, height⟩

/-- `Rectangle::new_centered` -/
def new_centered (center : Point) (width height : ℚ) : Rectangle :=
  ⟨⟨center.x - width / 2, center.y - height / 2⟩, width, height⟩

def min_x (r : Rectangle) : ℚ := r.anchor.x
def max_x (r : Rectangle) : ℚ := r.anchor.x + r.width
def min_y (r : Rectangle) : ℚ := r.anchor.y
def max_y (r : Rectangle) : ℚ := r.anchor.y + r.height

/-- `Rectangle::center` -/
def center (r : Rectangle) : Point :=
  ⟨r.min_x + r.width / 2, r.min_y + r.height / 2⟩

/-- `Rectangle::find_quadrant`: `none` when the point lies strictly outside
the closed box, otherwise the quadrant determined by the midlines, with
points on a midline classified to the lower/left side. -/
def find_quadrant (r : Rectangle) (pt : Point) : Option Quadrant :=
  if pt.x < r.min_x ∨ pt.x > r.max_x ∨ pt.y < r.min_y ∨ pt.y > r.max_y then
    none
  else
    let mid_x := (r.min_x + r.max_x) / 2
    let mid_y := (r.min_y + r.max_y) / 2
    if pt.x > mid_x then
      if pt.y > mid_y then some .TopRight else some .BottomRight
    else
      if pt.y > mid_y then some .TopLeft else some .BottomLeft

/-- `Rectangle::create_quadrant`: the half-width/half-height sub-rectangle
for the given slot. -/
def create_quadrant (r : Rectangle) (quadrant : Quadrant) : Rectangle :=
  let width := r.width / 2
  let height := r.height / 2
  let anchor : Point :=
    match quadrant with
    | .BottomLeft => r.anchor
    | .BottomRight => ⟨r.anchor.x + width, r.anchor.y⟩
    | .TopRight => ⟨r.anchor.x + width, r.anchor.y + height⟩
    | .TopLeft => ⟨r.anchor.x, r.anchor.y + height⟩
  ⟨anchor, width, height⟩

/-- `Rectangle::corners`, in the fixed order BL, BR, TR, TL. -/
def corners (r : Rectangle) : List Point :=
  [⟨r.min_x, r.min_y⟩, ⟨r.max_x, r.min_y⟩, ⟨r.max_x, r.max_y⟩, ⟨r.min_x, r.max_y⟩]

/-- `Rectangle::relation`: corner-containment classification of two
rectangles.  The final `.Disjoint` arm models the source's unreachable
arm (a rectangle has only four corners). -/
def relation (r other : Rectangle) : RectangleRelation :=
  let inner_quadrants : List (Option Quadrant) :=
    other.corners.map (fun c => r.find_quadrant c)
  if inner_quadrants.all (fun q => q.isNone) then
    match (r.corners.map (fun c => other.find_quadrant c)).reduceOption.length with
    | 0 => .Disjoint
    | 1 | 2 | 3 => .Intersection
    | 4 => .Containment false
    | _ => .Disjoint
  else
    if inner_quadrants.all (fun q => q.isSome) then
      .Containment true
    else
      .Intersection

end Rectangle

/-- Modelled from the spec: the `Spatial` container (its source file
`src/spatial.rs` is missing from the sources); it pairs one payload with
one `Point` and owns the payload (§2, §3 of the spec). -/
structure Spatial (α : Type) where
  data : α
  position : Point
deriving DecidableEq

mutual

/-- One quadrant slot of a `Node`.  This merges the source's
`Option<TreeNode<T>>`: `empty` is `None`, `point` is
`Some(TreeNode::Point(..))` and `node` is `Some(TreeNode::Node(..))`. -/
inductive Slot (α : Type) : Type where
  | empty : Slot α
  | point : Spatial α → Slot α
  | node : Node α → Slot α

/-- `Node<T>` (`src/node.rs`): a bounded holder of four quadrant slots in
the fixed order bottom-left, bottom-right, top-right, top-left. -/
inductive Node (α : Type) : Type where
  | mk : Rectangle → Slot α → Slot α → Slot α → Slot α → Node α

end

namespace Node

variable {α : Type}

/-- `Node::new_bounded` -/
def new_bounded (bounds : Rectangle) : Node α :=
  .mk bounds .empty .empty .empty .empty

/-- `Node::bounds` -/
def bounds : Node α → Rectangle
  | .mk b _ _ _ _ => b

/-- `Node::quadrant`: the slot stored for a given quadrant. -/
def quadrant : Node α → Quadrant → Slot α
  | .mk _ bl _ _ _, .BottomLeft => bl
  | .mk _ _ br _ _, .BottomRight => br
  | .mk _ _ _ tr _, .TopRight => tr
  | .mk _ _ _ _ tl, .TopLeft => tl

/-- Functional counterpart of `Node::quadrant_mut`: replace one slot. -/
def setQuadrant : Node α → Quadrant → Slot α → Node α
  | .mk b _ br tr tl, .BottomLeft, s => .mk b s br tr tl
  | .mk b bl _ tr tl, .BottomRight, s => .mk b bl s tr tl
  | .mk b bl br _ tl, .TopRight, s => .mk b bl br s tl
  | .mk b bl br tr _, .TopLeft, s => .mk b bl br tr s

end Node

/-- The data point a slot holds directly, if any (used by `Node::data`). -/
def Slot.dataOf {α : Type} : Slot α → List (Spatial α)
  | .empty => []
  | .point d => [d]
  | .node _ => []

/-- The child node a slot holds, if any (used by `Node::nodes`). -/
def Slot.nodeOf {α : Type} : Slot α → List (Node α)
  | .empty => []
  | .point _ => []
  | .node n => [n]

/-- Whether a slot holds a child node (`TreeNode::Node`). -/
def Slot.isNode {α : Type} : Slot α → Bool
  | .node _ => true
  | _ => false

namespace Node

variable {α : Type}

/-- `Node::data`: the leaves stored directly in this node, in slot order. -/
def data (n : Node α) : List (Spatial α) :=
  match n with
  | .mk _ bl br tr tl => bl.dataOf ++ br.dataOf ++ tr.dataOf ++ tl.dataOf

/-- `Node::nodes`: the direct child nodes, in slot order. -/
def nodes (n : Node α) : List (Node α) :=
  match n with
  | .mk _ bl br tr tl => bl.nodeOf ++ br.nodeOf ++ tr.nodeOf ++ tl.nodeOf

/-- `Node::data_count`: number of leaves stored directly in this node. -/
def data_count (n : Node α) : ℕ :=
  n.data.length

/-- `Node::is_empty`: all four slots are `None`. -/
def is_empty (n : Node α) : Bool :=
  match n with
  | .mk _ .empty .empty .empty .empty => true
  | _ => false

end Node

mutual

/-- `Node::find`: follow the quadrant chain of `pt` and return the payload
of the leaf stored exactly at `pt`, if any. -/
def Node.find {α : Type} : Node α → Point → Option α
  | .mk b bl br tr tl, pt =>
    match b.find_quadrant pt with
    | none => none
    | some .BottomLeft => slotFind bl pt
    | some .BottomRight => slotFind br pt
    | some .TopRight => slotFind tr pt
    | some .TopLeft => slotFind tl pt
  termination_by structural n _ => n

/-- Slot part of `Node::find`: leaves match on exact position equality,
child nodes recurse. -/
def slotFind {α : Type} : Slot α → Point → Option α
  | .empty, _ => none
  | .point d, pt => if d.position = pt then some d.data else none
  | .node n, pt => n.find pt
  termination_by structural s _ => s

end

mutual

/-- `Node::remove`: take the slot on `pt`'s quadrant chain; a child node is
recursed into and always re-stored, a leaf is detached exactly when its
position equals `pt` and put back unchanged otherwise.  Returns the removed
payload (if any) and the resulting node. -/
def Node.remove {α : Type} : Node α → Point → Option α × Node α
  | n@(.mk b bl br tr tl), pt =>
    match b.find_quadrant pt with
    | none => (none, n)
    | some .BottomLeft => let r := slotRemove bl pt; (r.1, .mk b r.2 br tr tl)
    | some .BottomRight => let r := slotRemove br pt; (r.1, .mk b bl r.2 tr tl)
    | some .TopRight => let r := slotRemove tr pt; (r.1, .mk b bl br r.2 tl)
    | some .TopLeft => let r := slotRemove tl pt; (r.1, .mk b bl br tr r.2)
  termination_by structural n _ => n

/-- Slot part of `Node::remove`. -/
def slotRemove {α : Type} : Slot α → Point → Option α × Slot α
  | .empty, _ => (none, .empty)
  | .point d, pt =>
    if d.position = pt then (some d.data, .empty) else (none, .point d)
  | .node n, pt => let r := n.remove pt; (r.1, .node r.2)
  termination_by structural s _ => s

end

/-- `Node::insert`, with an explicit recursion-depth fuel: the source can
recurse without bound when two leaves share a position, which the Rust
code turns into a stack overflow.  `none` models both fuel exhaustion and
the `expect("data outside of bounds!")` panic.  An empty slot takes the
leaf, a child node recurses, and a leaf triggers `Node::split` — the leaf
is replaced by a fresh node bounded by that quadrant's sub-rectangle, the
displaced leaf is inserted into it and the new insertion recurses into
the same child. -/
def Node.insertF {α : Type} : ℕ → Node α → Spatial α → Option (Node α)
  | 0, _, _ => none
  | fuel + 1, n, d =>
    match n.bounds.find_quadrant d.position with
    | none => none
    | some q =>
      match n.quadrant q with
      | .empty => some (n.setQuadrant q (.point d))
      | .node c =>
        (Node.insertF fuel c d).map (fun c' => n.setQuadrant q (.node c'))
      | .point old =>
        match Node.insertF fuel (Node.new_bounded (n.bounds.create_quadrant q)) old with
        | none => none
        | some child =>
          (Node.insertF fuel child d).map (fun c' => n.setQuadrant q (.node c'))

mutual

/-- `Node::data_children`: the leaves stored directly in this node first,
then the leaves of each child subtree, recursively, in slot order. -/
def Node.data_children {α : Type} : Node α → List (Spatial α)
  | .mk b bl br tr tl =>
    (Node.mk b bl br tr tl).data ++
      slotDataChildren bl ++ slotDataChildren br ++
      slotDataChildren tr ++ slotDataChildren tl
  termination_by structural n => n

/-- Slot part of `Node::data_children`: only child nodes contribute. -/
def slotDataChildren {α : Type} : Slot α → List (Spatial α)
  | .empty => []
  | .point _ => []
  | .node n => n.data_children
  termination_by structural s => s

end

mutual

/-- Number of nodes in a subtree, root included: the count computed by
`QuadTree::node_count` through `Node::visit_nodes`. -/
def Node.node_count {α : Type} : Node α → ℕ
  | .mk _ bl br tr tl =>
    1 + slotNodeCount bl + slotNodeCount br + slotNodeCount tr + slotNodeCount tl
  termination_by structural n => n

/-- Slot part of `Node.node_count`: only child nodes count. -/
def slotNodeCount {α : Type} : Slot α → ℕ
  | .empty => 0
  | .point _ => 0
  | .node n => n.node_count
  termination_by structural s => s

end

mutual

/-- Number of leaves in a subtree: the count computed by `QuadTree::len`
through `Node::visit_nodes_ref`, which sums `Node::data().count()` over
every node. -/
def Node.len {α : Type} : Node α → ℕ
  | .mk _ bl br tr tl => slotLen bl + slotLen br + slotLen tr + slotLen tl
  termination_by structural n => n

/-- Slot part of `Node.len`. -/
def slotLen {α : Type} : Slot α → ℕ
  | .empty => 0
  | .point _ => 1
  | .node n => n.len
  termination_by structural s => s

end

mutual

/-- `Node::collapse` restricted to its returned list: every slot is taken
out in slot order; a leaf is pushed, a child node contributes its own
collapse.  The source's first loop, over `node_children_mut()`, is a no-op
because that function always returns an empty vector (it only ever extends
an empty vector with recursive results and never pushes a node). -/
def Node.collapseList {α : Type} : Node α → List (Spatial α)
  | .mk _ bl br tr tl =>
    slotCollapse bl ++ slotCollapse br ++ slotCollapse tr ++ slotCollapse tl
  termination_by structural n => n

/-- Slot part of `Node.collapseList`. -/
def slotCollapse {α : Type} : Slot α → List (Spatial α)
  | .empty => []
  | .point d => [d]
  | .node n => n.collapseList
  termination_by structural s => s

end

/-- `Node::collapse`: the detached leaves together with the emptied node
(every slot was taken out and never restored). -/
def Node.collapse {α : Type} (n : Node α) : List (Spatial α) × Node α :=
  (n.collapseList, Node.new_bounded n.bounds)

mutual

/-- `Node::shrink_children`: every slot is taken out; the source drops a
taken leaf without restoring it, drops a child node that is empty, and
otherwise shrinks the child recursively and re-stores it. -/
def Node.shrink_children {α : Type} : Node α → Node α
  | .mk b bl br tr tl =>
    .mk b (slotShrink bl) (slotShrink br) (slotShrink tr) (slotShrink tl)
  termination_by structural n => n

/-- Slot part of `Node.shrink_children`. -/
def slotShrink {α : Type} : Slot α → Slot α
  | .empty => .empty
  | .point _ => .empty
  | .node n => if n.is_empty then .empty else .node n.shrink_children
  termination_by structural s => s

end

/-- Stable insertion of an element into a list sorted by the boolean
comparator `le` (the element goes before the first entry it compares
`le` to, hence after earlier equal entries). -/
def insertSorted {α : Type} (le : α → α → Bool) (a : α) : List α → List α
  | [] => [a]
  | b :: bs => if le a b then a :: b :: bs else b :: insertSorted le a bs

/-- Stable sort by a boolean comparator; models `sort_by` of the source
(stable, comparator from `partial_cmp` which is total on rationals). -/
def sortBy {α : Type} (le : α → α → Bool) : List α → List α
  | [] => []
  | a :: as => insertSorted le a (sortBy le as)

/-- The chebyshev distance helper inside
`Node::minimum_coordinate_distance`. -/
def coordinate_distance (a b : Point) : ℚ :=
  max |a.x - b.x| |a.y - b.y|

mutual

/-- `Node::minimum_coordinate_distance`: descend along `pt`'s quadrant
chain; an empty slot yields the chebyshev distance to the farthest corner
of the current bounds plus `0.1`, a leaf yields the chebyshev distance to
that leaf plus `0.1`, a child node recurses; an out-of-bounds point yields
`none`. -/
def Node.minimum_coordinate_distance {α : Type} : Node α → Point → Option ℚ
  | .mk b bl br tr tl, pt =>
    match b.find_quadrant pt with
    | none => none
    | some .BottomLeft => slotMCD b bl pt
    | some .BottomRight => slotMCD b br pt
    | some .TopRight => slotMCD b tr pt
    | some .TopLeft => slotMCD b tl pt
  termination_by structural n _ => n

/-- Slot part of `Node.minimum_coordinate_distance`; `b` is the current
node's bounds, used for the empty-slot corner computation (the source
sorts the corners by squared distance ascending, reverses, and takes the
first, i.e. a farthest corner). -/
def slotMCD {α : Type} (b : Rectangle) : Slot α → Point → Option ℚ
  | .empty, pt =>
    let sorted := sortBy
      (fun a c => decide (a.squared_distance pt ≤ c.squared_distance pt))
      b.corners
    let farthest_corner := sorted.reverse.headD pt
    some (coordinate_distance pt farthest_corner + 1 / 10)
  | .point cur_pt, pt =>
    some (coordinate_distance pt cur_pt.position + 1 / 10)
  | .node n, pt => n.minimum_coordinate_distance pt
  termination_by structural s _ => s

end

mutual

/-- `Node::find_in_bounds`: classify `self.bounds.relation(query)`.
Disjoint yields `none`; Intersection filters this node's own leaves by
membership in the query and appends every child's recursive result;
Containment(false) (the query contains this node) returns every
descendant leaf; Containment(true) (the query lies inside this node)
visits only the distinct quadrants touched by the query's corners, in
first-occurrence order. -/
def Node.find_in_bounds {α : Type} : Node α → Rectangle → Option (List (Spatial α))
  | n@(.mk b bl br tr tl), bounds =>
    match b.relation bounds with
    | .Disjoint => none
    | .Intersection =>
      let own := n.data.filter (fun d => (bounds.find_quadrant d.position).isSome)
      some (own ++ slotSearch bl bounds ++ slotSearch br bounds ++
        slotSearch tr bounds ++ slotSearch tl bounds)
    | .Containment false => some n.data_children
    | .Containment true =>
      let qs := (bounds.corners.map (fun c => b.find_quadrant c)).reduceOption
      let uniq := qs.foldl (fun acc q => if q ∈ acc then acc else acc ++ [q]) []
      let rbl := slotQuery bl bounds
      let rbr := slotQuery br bounds
      let rtr := slotQuery tr bounds
      let rtl := slotQuery tl bounds
      some ((uniq.map (fun q =>
        match q with
        | .BottomLeft => rbl
        | .BottomRight => rbr
        | .TopRight => rtr
        | .TopLeft => rtl)).flatten)
  termination_by structural n _ => n

/-- Slot part of the Intersection branch of `Node.find_in_bounds`: only
child nodes contribute here (a `none` child result is skipped). -/
def slotSearch {α : Type} : Slot α → Rectangle → List (Spatial α)
  | .empty, _ => []
  | .point _, _ => []
  | .node n, bounds => (n.find_in_bounds bounds).getD []
  termination_by structural s _ => s

/-- Slot part of the Containment(true) branch of `Node.find_in_bounds`: a
leaf in a visited quadrant is tested for inclusion in the query, a child
node recurses. -/
def slotQuery {α : Type} : Slot α → Rectangle → List (Spatial α)
  | .empty, _ => []
  | .point d, bounds =>
    if (bounds.find_quadrant d.position).isSome then [d] else []
  | .node n, bounds => (n.find_in_bounds bounds).getD []
  termination_by structural s _ => s

end

/-- `QuadTree<T>` (`src/quadtree.rs`): the root node and the fixed overall
bounds. -/
structure QuadTree (α : Type) where
  root : Node α
  bounds : Rectangle

namespace QuadTree

variable {α : Type}

/-- `QuadTree::new_bounded` -/
def new_bounded (bounds : Rectangle) : QuadTree α :=
  ⟨Node.new_bounded bounds, bounds⟩

/-- `QuadTree::find_exact` -/
def find_exact (t : QuadTree α) (pt : Point) : Option α :=
  t.root.find pt

/-- `QuadTree::contains` -/
def contains (t : QuadTree α) (pt : Point) : Bool :=
  (t.root.find pt).isSome

/-- `QuadTree::insert`, carrying the recursion fuel of `Node.insertF`:
rejects (returns `some (false, t)` without delegating) a position outside
the bounds or an exact-position duplicate, otherwise delegates to
`Node::insert`; `none` models a panic or fuel exhaustion inside the
delegated insertion. -/
def insert (fuel : ℕ) (t : QuadTree α) (data : α) (position : Point) :
    Option (Bool × QuadTree α) :=
  if (t.bounds.find_quadrant position).isNone then
    some (false, t)
  else if t.contains position then
    some (false, t)
  else
    (t.root.insertF fuel ⟨data, position⟩).map (fun r => (true, ⟨r, t.bounds⟩))

/-- `QuadTree::insert_unchecked` (delegates directly to `Node::insert`). -/
def insert_unchecked (fuel : ℕ) (t : QuadTree α) (data : α) (position : Point) :
    Option (QuadTree α) :=
  (t.root.insertF fuel ⟨data, position⟩).map (fun r => ⟨r, t.bounds⟩)

/-- `QuadTree::remove` -/
def remove (t : QuadTree α) (pt : Point) : Option α × QuadTree α :=
  let r := t.root.remove pt
  (r.1, ⟨r.2, t.bounds⟩)

/-- `QuadTree::shrink`: collapse the root, then re-insert every returned
leaf through the unchecked insertion path. -/
def shrink (fuel : ℕ) (t : QuadTree α) : Option (QuadTree α) :=
  let c := t.root.collapse
  (c.1.foldlM (fun n d => Node.insertF fuel n d) c.2).map (fun r => ⟨r, t.bounds⟩)

/-- `QuadTree::node_count` -/
def node_count (t : QuadTree α) : ℕ :=
  t.root.node_count

/-- `QuadTree::len` -/
def len (t : QuadTree α) : ℕ :=
  t.root.len

/-- `QuadTree::find_nearest_neighbors`: radius estimate from
`Node::minimum_coordinate_distance`, range query over the square window of
side `2 * dist` centered on `pt`, results sorted by squared euclidean
distance ascending, first `n` kept. -/
def find_nearest_neighbors (t : QuadTree α) (pt : Point) (n : ℕ) :
    Option (List (Spatial α)) :=
  match t.root.minimum_coordinate_distance pt with
  | none => none
  | some dist =>
    let query_rect := Rectangle.new_centered pt (dist * 2) (dist * 2)
    match t.root.find_in_bounds query_rect with
    | none => none
    | some data =>
      some ((sortBy (fun a b =>
        decide (a.position.squared_distance pt ≤ b.position.squared_distance pt))
        data).take n)

/-- `QuadTree::find_nearest_neighbor` -/
def find_nearest_neighbor (t : QuadTree α) (pt : Point) : Option α :=
  match t.find_nearest_neighbors pt 1 with
  | none => none
  | some l => l.head?.map (fun s => s.data)

/-- `QuadTree::find_nearest_neighbor_position` -/
def find_nearest_neighbor_position (t : QuadTree α) (pt : Point) : Option Point :=
  match t.find_nearest_neighbors pt 1 with
  | none => none
  | some l => l.head?.map (fun s => s.position)

/-- `QuadTree::find_in_bounds` (projection to payloads). -/
def find_in_bounds (t : QuadTree α) (bounds : Rectangle) : Option (List α) :=
  (t.root.find_in_bounds bounds).map (fun l => l.map (fun d => d.data))

end QuadTree

end Quadtree

/-! ## Basic lemmas about slots and quadrants -/

namespace Quadtree

variable {α : Type}

theorem Node.bounds_setQuadrant (n : Node α) (q : Quadrant) (s : Slot α) :
    (n.setQuadrant q s).bounds = n.bounds := by
  cases n <;> cases q <;> rfl

theorem Node.quadrant_setQuadrant_self (n : Node α) (q : Quadrant) (s : Slot α) :
    (n.setQuadrant q s).quadrant q = s := by
  cases n <;> cases q <;> rfl

theorem Node.quadrant_setQuadrant_other (n : Node α) (q q' : Quadrant) (s : Slot α)
    (h : q' ≠ q) : (n.setQuadrant q s).quadrant q' = n.quadrant q' := by
  cases n <;> cases q <;> cases q' <;> first | rfl | exact absurd rfl h

theorem Node.find_eq (n : Node α) (pt : Point) :
    n.find pt =
      match n.bounds.find_quadrant pt with
      | none => none
      | some q => slotFind (n.quadrant q) pt := by
  match n with
  | .mk b bl br tr tl =>
    unfold Node.find
    simp only [Node.bounds]
    cases b.find_quadrant pt with
    | none => rfl
    | some q => cases q <;> rfl

theorem Node.remove_eq (n : Node α) (pt : Point) :
    n.remove pt =
      match n.bounds.find_quadrant pt with
      | none => (none, n)
      | some q =>
        ((slotRemove (n.quadrant q) pt).1,
          n.setQuadrant q (slotRemove (n.quadrant q) pt).2) := by
  match n with
  | .mk b bl br tr tl =>
    unfold Node.remove
    simp only [Node.bounds]
    cases b.find_quadrant pt with
    | none => rfl
    | some q => cases q <;> rfl

theorem Node.find_new_bounded (b : Rectangle) (pt : Point) :
    (Node.new_bounded (α := α) b).find pt = none := by
  rw [Node.find_eq]
  show (match b.find_quadrant pt with
    | none => none
    | some q => slotFind ((Node.new_bounded (α := α) b).quadrant q) pt) = none
  cases b.find_quadrant pt with
  | none => rfl
  | some q => cases q <;> rfl

end Quadtree

namespace Quadtree

variable {α : Type}

mutual

theorem Node.remove_fst_eq_find (n : Node α) (pt : Point) :
    (n.remove pt).1 = n.find pt := by
  match n with
  | .mk b bl br tr tl =>
    unfold Node.remove Node.find
    simp only [Node.bounds]
    match b.find_quadrant pt with
    | none => simp
    | some .BottomLeft => simpa using slotRemove_fst_eq_slotFind bl pt
    | some .BottomRight => simpa using slotRemove_fst_eq_slotFind br pt
    | some .TopRight => simpa using slotRemove_fst_eq_slotFind tr pt
    | some .TopLeft => simpa using slotRemove_fst_eq_slotFind tl pt

theorem slotRemove_fst_eq_slotFind (s : Slot α) (pt : Point) :
    (slotRemove s pt).1 = slotFind s pt := by
  match s with
  | .empty => rfl
  | .point d =>
    unfold slotRemove slotFind
    by_cases h : d.position = pt <;> simp [h]
  | .node m => simpa [slotRemove, slotFind] using Node.remove_fst_eq_find m pt

end

mutual

theorem Node.find_remove_none (n : Node α) (pt : Point) :
    ((n.remove pt).2).find pt = none := by
  match n with
  | .mk b bl br tr tl =>
    unfold Node.remove
    simp only [Node.bounds]
    rcases hq : b.find_quadrant pt with _ | q
    · simp only
      rw [Node.find_eq]
      simp only [Node.bounds, hq]
    · cases q <;> simp only <;> rw [Node.find_eq] <;>
        simp only [Node.bounds, Node.quadrant, hq] <;>
        first
          | exact slotFind_slotRemove_none bl pt
          | exact slotFind_slotRemove_none br pt
          | exact slotFind_slotRemove_none tr pt
          | exact slotFind_slotRemove_none tl pt

theorem slotFind_slotRemove_none (s : Slot α) (pt : Point) :
    slotFind (slotRemove s pt).2 pt = none := by
  match s with
  | .empty => rfl
  | .point d =>
    unfold slotRemove
    by_cases h : d.position = pt <;> simp [h, slotFind]
  | .node m => simpa [slotRemove, slotFind] using Node.find_remove_none m pt

end

theorem Node.insertF_find_self (fuel : ℕ) (n : Node α) (d : Spatial α) (n' : Node α)
    (h : Node.insertF fuel n d = some n') : n'.find d.position = some d.data := by
  match fuel with
  | 0 => simp [Node.insertF] at h
  | fuel + 1 =>
    rw [Node.insertF] at h
    rcases hq : n.bounds.find_quadrant d.position with _ | q <;> rw [hq] at h <;>
      simp only at h
    · exact absurd h (by simp)
    · rcases hs : n.quadrant q with _ | old | c <;> rw [hs] at h <;> simp only at h
      · rw [Option.some_inj] at h
        subst h
        rw [Node.find_eq, Node.bounds_setQuadrant, hq]
        simp only [Node.quadrant_setQuadrant_self]
        simp [slotFind]
      · rcases hc : Node.insertF fuel (Node.new_bounded (n.bounds.create_quadrant q)) old
          with _ | child <;> rw [hc] at h <;> simp only at h
        · exact absurd h (by simp)
        · rcases Option.map_eq_some'.1 h with ⟨c', hcc, rfl⟩
          rw [Node.find_eq, Node.bounds_setQuadrant, hq]
          simp only [Node.quadrant_setQuadrant_self]
          simpa [slotFind] using Node.insertF_find_self fuel child d c' hcc
      · rcases Option.map_eq_some'.1 h with ⟨c', hcc, rfl⟩
        rw [Node.find_eq, Node.bounds_setQuadrant, hq]
        simp only [Node.quadrant_setQuadrant_self]
        simpa [slotFind] using Node.insertF_find_self fuel c d c' hcc

theorem Node.insertF_find_other (fuel : ℕ) (n : Node α) (d : Spatial α) (n' : Node α)
    (pt : Point) (hne : d.position ≠ pt)
    (h : Node.insertF fuel n d = some n') : n'.find pt = n.find pt := by
  match fuel with
  | 0 => simp [Node.insertF] at h
  | fuel + 1 =>
    rw [Node.insertF] at h
    rcases hq : n.bounds.find_quadrant d.position with _ | q <;> rw [hq] at h <;>
      simp only at h
    · exact absurd h (by simp)
    · have step : ∀ s' : Slot α, n' = n.setQuadrant q s' →
          slotFind s' pt = slotFind (n.quadrant q) pt → n'.find pt = n.find pt := by
        intro s' h1 h2
        subst h1
        rw [Node.find_eq, Node.bounds_setQuadrant, Node.find_eq (n := n)]
        rcases hp : n.bounds.find_quadrant pt with _ | q'
        · rfl
        · simp only
          by_cases hqq : q' = q
          · subst hqq
            rw [Node.quadrant_setQuadrant_self]
            exact h2
          · rw [Node.quadrant_setQuadrant_other _ _ _ _ hqq]
      rcases hs : n.quadrant q with _ | old | c <;> rw [hs] at h <;> simp only at h
      · rw [Option.some_inj] at h
        refine step _ h.symm ?_
        rw [hs]
        simp [slotFind, hne]
      · rcases hc : Node.insertF fuel (Node.new_bounded (n.bounds.create_quadrant q)) old
          with _ | child <;> rw [hc] at h <;> simp only at h
        · exact absurd h (by simp)
        · rcases Option.map_eq_some'.1 h with ⟨c', hcc, rfl⟩
          refine step _ rfl ?_
          rw [hs]
          have h3 : c'.find pt = child.find pt :=
            Node.insertF_find_other fuel child d c' pt hne hcc
          by_cases hop : old.position = pt
          · have h4 : child.find old.position = some old.data :=
              Node.insertF_find_self fuel _ old child hc
            rw [hop] at h4
            simp [slotFind, h3, h4, hop]
          · have h4 : child.find pt =
                (Node.new_bounded (α := α) (n.bounds.create_quadrant q)).find pt :=
              Node.insertF_find_other fuel _ old child pt hop hc
            rw [Node.find_new_bounded] at h4
            simp [slotFind, h3, h4, hop]
      · rcases Option.map_eq_some'.1 h with ⟨c', hcc, rfl⟩
        refine step _ rfl ?_
        rw [hs]
        simpa [slotFind] using Node.insertF_find_other fuel c d c' pt hne hcc

end Quadtree

namespace Quadtree

variable {α : Type}

/-- C1: for every payload `v` and every point `P` inside the tree's bounds
at which no data is currently stored, a `QuadTree::insert(v, P)` that runs
to completion (the fuel hypothesis) followed by `find_exact(P)` returns
`v`; a subsequent `remove(P)` returns `v`, and a `find_exact(P)` after
that removal returns `none`. -/
theorem C1_insert_find_remove_roundtrip (fuel : ℕ) (t : QuadTree α) (v : α)
    (P : Point) (t' : QuadTree α)
    (hin : (t.bounds.find_quadrant P).isSome)
    (hnone : t.find_exact P = none)
    (hins : QuadTree.insert fuel t v P = some (true, t')) :
    t'.find_exact P = some v ∧
    (t'.remove P).1 = some v ∧
    ((t'.remove P).2).find_exact P = none := by
  rw [QuadTree.insert] at hins
  rw [if_neg (by simp [Option.isNone_iff_eq_none] at hin ⊢; exact Option.ne_none_iff_isSome.2 hin)] at hins
  rw [if_neg (by simp [QuadTree.contains, QuadTree.find_exact] at hnone ⊢; exact hnone)] at hins
  rcases Option.map_eq_some'.1 hins with ⟨r, hr, hpair⟩
  have ht' : t' = ⟨r, t.bounds⟩ := by
    cases hpair
    rfl
  subst ht'
  refine ⟨?_, ?_, ?_⟩
  · exact Node.insertF_find_self fuel t.root ⟨v, P⟩ r hr
  · rw [QuadTree.remove]
    simp only
    rw [Node.remove_fst_eq_find]
    exact Node.insertF_find_self fuel t.root ⟨v, P⟩ r hr
  · rw [QuadTree.remove]
    simp only [QuadTree.find_exact]
    exact Node.find_remove_none r P

/-- Concrete instantiation data for the C1 witness. -/
def c1t0 : QuadTree ℤ := QuadTree.new_bounded (Rectangle.new ⟨0, 0⟩ 4 4)

/-- The tree obtained by inserting payload `7` at `(1, 1)` into `c1t0`. -/
def c1t1 : QuadTree ℤ := ((QuadTree.insert 5 c1t0 7 ⟨1, 1⟩).getD (false, c1t0)).2

/-- Witness for C1 at a concrete input. -/
theorem C1_witness :
    c1t1.find_exact ⟨1, 1⟩ = some 7 ∧
    (c1t1.remove ⟨1, 1⟩).1 = some 7 ∧
    ((c1t1.remove ⟨1, 1⟩).2).find_exact ⟨1, 1⟩ = none :=
  C1_insert_find_remove_roundtrip 5 c1t0 7 ⟨1, 1⟩ c1t1 (by decide) (by decide) (by rfl)

end Quadtree

namespace Quadtree

variable {α : Type}

theorem Node.minimum_coordinate_distance_eq (n : Node α) (pt : Point) :
    n.minimum_coordinate_distance pt =
      match n.bounds.find_quadrant pt with
      | none => none
      | some q => slotMCD n.bounds (n.quadrant q) pt := by
  match n with
  | .mk b bl br tr tl =>
    unfold Node.minimum_coordinate_distance
    simp only [Node.bounds]
    cases b.find_quadrant pt with
    | none => rfl
    | some q => cases q <;> rfl

/-- C10: for every tree (non-empty or not) and every query point outside
the root's bounds, `find_nearest_neighbor` and
`find_nearest_neighbor_position` return `none`, because
`minimum_coordinate_distance` returns `none` whenever `find_quadrant`
rejects the point.  The root's bounds are the tree's bounds: every
construction and operation of the wrapper keeps them identical. -/
theorem C10_nearest_neighbor_out_of_bounds (t : QuadTree α) (P : Point)
    (h : t.root.bounds.find_quadrant P = none) :
    t.root.minimum_coordinate_distance P = none ∧
    t.find_nearest_neighbor P = none ∧
    t.find_nearest_neighbor_position P = none := by
  have hm : t.root.minimum_coordinate_distance P = none := by
    rw [Node.minimum_coordinate_distance_eq, h]
  have hn : t.find_nearest_neighbors P 1 = none := by
    rw [QuadTree.find_nearest_neighbors, hm]
  refine ⟨hm, ?_, ?_⟩
  · rw [QuadTree.find_nearest_neighbor, hn]
  · rw [QuadTree.find_nearest_neighbor_position, hn]

/-- A non-empty concrete tree for the C10 witness: payload `7` stored at
`(1, 1)` in bounds `(0,0)-(4,4)`. -/
def c10t : QuadTree ℤ :=
  ((QuadTree.insert 5 (QuadTree.new_bounded (Rectangle.new ⟨0, 0⟩ 4 4)) 7
    ⟨1, 1⟩).getD (false, QuadTree.new_bounded (Rectangle.new ⟨0, 0⟩ 4 4))).2

/-- Witness for C10: the query point `(10, 10)` lies outside `(0,0)-(4,4)`. -/
theorem C10_witness :
    c10t.root.minimum_coordinate_distance ⟨10, 10⟩ = none ∧
    c10t.find_nearest_neighbor ⟨10, 10⟩ = none ∧
    c10t.find_nearest_neighbor_position ⟨10, 10⟩ = none :=
  C10_nearest_neighbor_out_of_bounds c10t ⟨10, 10⟩ (by decide)

end Quadtree

namespace Quadtree

/-- Concrete scenario for C2 (spec §8, scenario 1): a node bounded by
`(0,0)-(10,20)`. -/
def c2n0 : Node ℤ := Node.new_bounded (Rectangle.new ⟨0, 0⟩ 10 20)

/-- `c2n0` after inserting payload `0` at `(0.1, 0.2)`. -/
def c2n1 : Node ℤ := (Node.insertF 20 c2n0 ⟨0, ⟨1/10, 2/10⟩⟩).getD c2n0

/-- `c2n1` after inserting payload `12` at `(0.1, 0.3)`. -/
def c2n2 : Node ℤ := (Node.insertF 20 c2n1 ⟨12, ⟨1/10, 3/10⟩⟩).getD c2n1

/-- C2: when `Node::insert` targets a slot holding a leaf, it replaces the
leaf by a fresh child node bounded by that quadrant's sub-rectangle,
inserts the displaced leaf into it and recurses the new insertion into
the same child (first conjunct, the unfolding of the leaf case of
`Node.insertF`); concretely, on bounds `(0,0)-(10,20)`, inserting payload
`0` at `(0.1,0.2)` gives `data_count() == 1`, and inserting `12` at
`(0.1,0.3)` splits the bottom-left slot, leaving `data_count() == 0` at
the top level. -/
theorem C2_split_replaces_leaf_with_child :
    (∀ (α : Type) (fuel : ℕ) (n : Node α) (d old : Spatial α) (q : Quadrant),
      n.bounds.find_quadrant d.position = some q →
      n.quadrant q = Slot.point old →
      Node.insertF (fuel + 1) n d =
        match Node.insertF fuel (Node.new_bounded (n.bounds.create_quadrant q)) old with
        | none => none
        | some child =>
          (Node.insertF fuel child d).map (fun c' => n.setQuadrant q (Slot.node c'))) ∧
    ((Node.insertF 20 c2n0 ⟨0, ⟨1/10, 2/10⟩⟩).isSome ∧ c2n1.data_count = 1 ∧
      (Node.insertF 20 c2n1 ⟨12, ⟨1/10, 3/10⟩⟩).isSome ∧ c2n2.data_count = 0 ∧
      (c2n2.quadrant .BottomLeft).isNode = true) := by
  constructor
  · intro α fuel n d old q hq hs
    rw [Node.insertF, hq]
    simp only
    rw [hs]
  · exact ⟨by decide, by decide, by decide, by decide, by decide⟩

/-- Concrete node for the C2 witness: bounds `(0,0)-(4,4)`, bottom-left
slot holding the leaf `(1, (1,1))`. -/
def c2wn : Node ℤ :=
  Node.mk (Rectangle.new ⟨0, 0⟩ 4 4) (Slot.point ⟨1, ⟨1, 1⟩⟩) .empty .empty .empty

/-- Witness for C2: the split equation instantiated at `c2wn` with the
new leaf `(2, (2,2))`, which lands on the occupied bottom-left slot. -/
theorem C2_witness :
    Node.insertF 6 c2wn ⟨2, ⟨2, 2⟩⟩ =
      match Node.insertF 5
          (Node.new_bounded (c2wn.bounds.create_quadrant .BottomLeft))
          (⟨1, ⟨1, 1⟩⟩ : Spatial ℤ) with
      | none => none
      | some child =>
        (Node.insertF 5 child ⟨2, ⟨2, 2⟩⟩).map
          (fun c' => c2wn.setQuadrant .BottomLeft (Slot.node c')) :=
  C2_split_replaces_leaf_with_child.1 ℤ 5 c2wn ⟨2, ⟨2, 2⟩⟩ ⟨1, ⟨1, 1⟩⟩
    .BottomLeft (by decide) (by rfl)

end Quadtree

namespace Quadtree

variable {α : Type}

mutual

theorem Node.node_count_shrink_le (n : Node α) :
    n.shrink_children.node_count ≤ n.node_count := by
  match n with
  | .mk b bl br tr tl =>
    unfold Node.shrink_children Node.node_count
    have h1 := slotNodeCount_shrink_le bl
    have h2 := slotNodeCount_shrink_le br
    have h3 := slotNodeCount_shrink_le tr
    have h4 := slotNodeCount_shrink_le tl
    omega

theorem slotNodeCount_shrink_le (s : Slot α) :
    slotNodeCount (slotShrink s) ≤ slotNodeCount s := by
  match s with
  | .empty => exact le_refl _
  | .point d => simp [slotShrink, slotNodeCount]
  | .node c =>
    unfold slotShrink
    by_cases h : c.is_empty = true
    · simp [h, slotNodeCount]
    · simp only [h]
      simpa [slotNodeCount] using Node.node_count_shrink_le c

end

/-- The bounds of the C7 counterexample tree. -/
def c7b : Rectangle := Rectangle.new ⟨0, 0⟩ 4 4

/-- C7 counterexample tree: the root holds one child node (in the
bottom-left slot) that itself holds one leaf. -/
def c7root : Node ℤ :=
  Node.mk c7b
    (Slot.node (Node.mk (c7b.create_quadrant .BottomLeft)
      (Slot.point ⟨1, ⟨1, 1⟩⟩) .empty .empty .empty))
    .empty .empty .empty

/-- C7 is false on the code: on `c7root`, the first `shrink_children`
keeps the child (it was non-empty when inspected, and is re-stored after
being recursively shrunk, which drops its leaf), so `node_count` stays
`2`; the second call sees the now-empty child and drops it, so
`node_count` becomes `1`. -/
theorem C7_counterexample :
    (QuadTree.mk c7root.shrink_children c7b).node_count ≠
      (QuadTree.mk c7root.shrink_children.shrink_children c7b).node_count := by
  decide

/-- C7 amended: applying `shrink_children` twice in a row never increases
`node_count` — the second call's count is at most the first call's count
(equality fails, see the counterexample: one pass only handles one level
of empty chains, and the source also drops leaves it visits). -/
theorem C7_amended_shrink_twice_node_count_le (n : Node α) :
    (QuadTree.mk n.shrink_children.shrink_children n.bounds).node_count ≤
      (QuadTree.mk n.shrink_children n.bounds).node_count :=
  Node.node_count_shrink_le n.shrink_children

end Quadtree

namespace Quadtree

/-- C8 scenario tree, step 0: empty tree bounded by `(0,0)-(5,10)`. -/
def c8t0 : QuadTree ℤ := QuadTree.new_bounded (Rectangle.new ⟨0, 0⟩ 5 10)

/-- C8 scenario tree after inserting payload `3` at `(2, 7)`. -/
def c8t1 : QuadTree ℤ := ((QuadTree.insert 30 c8t0 3 ⟨2, 7⟩).getD (false, c8t0)).2

/-- C8 scenario tree after additionally inserting payload `2` at
`(2.5, 7.5)`. -/
def c8t2 : QuadTree ℤ := ((QuadTree.insert 30 c8t1 2 ⟨5/2, 15/2⟩).getD (false, c8t1)).2

/-- C8 (spec §8, scenario 2): with payload `3` at `(2,7)` and payload `2`
at `(2.5,7.5)` in bounds `(0,0)-(5,10)`, both insertions succeed and
`find_nearest_neighbor((3,8))` returns `2`.  -/
theorem C8_nearest_neighbor_scenario :
    (QuadTree.insert 30 c8t0 3 ⟨2, 7⟩).map (fun r => r.1) = some true ∧
    (QuadTree.insert 30 c8t1 2 ⟨5/2, 15/2⟩).map (fun r => r.1) = some true ∧
    c8t2.find_nearest_neighbor ⟨3, 8⟩ = some 2 := by
  refine ⟨by decide, by decide, by decide⟩

end Quadtree

namespace Quadtree

variable {α : Type}

/-- C9 amended: in the `Intersection` branch the result is the node's own
matching leaves followed by the children's recursive results, and in the
`Containment(false)` branch it is `data_children`, whose head segment is
the node's own leaves — no sort is applied in either case.  (In the
`Containment(true)` branch the claim fails, see the counterexample: slots
are visited in the order the query's corners touch them, so a child's
leaves can precede the node's own leaf.) -/
theorem C9_amended_result_order (n : Node α) (query : Rectangle) :
    (n.bounds.relation query = .Intersection →
      n.find_in_bounds query =
        some (n.data.filter (fun d => (query.find_quadrant d.position).isSome) ++
          slotSearch (n.quadrant .BottomLeft) query ++
          slotSearch (n.quadrant .BottomRight) query ++
          slotSearch (n.quadrant .TopRight) query ++
          slotSearch (n.quadrant .TopLeft) query)) ∧
    (n.bounds.relation query = .Containment false →
      n.find_in_bounds query = some n.data_children ∧
      n.data_children = n.data ++
        slotDataChildren (n.quadrant .BottomLeft) ++
        slotDataChildren (n.quadrant .BottomRight) ++
        slotDataChildren (n.quadrant .TopRight) ++
        slotDataChildren (n.quadrant .TopLeft)) := by
  match n with
  | .mk b bl br tr tl =>
    constructor
    · intro hrel
      unfold Node.find_in_bounds
      simp only [Node.bounds] at hrel ⊢
      rw [hrel]
      simp only [Node.quadrant, List.append_assoc]
    · intro hrel
      unfold Node.find_in_bounds
      simp only [Node.bounds] at hrel ⊢
      rw [hrel]
      refine ⟨rfl, ?_⟩
      unfold Node.data_children
      simp only [Node.quadrant, List.append_assoc]

/-- Bounds of the C9 counterexample node. -/
def c9b : Rectangle := Rectangle.new ⟨0, 0⟩ 8 8

/-- C9 counterexample node: its bottom-left slot holds a child node with
leaf `100` at `(1,1)`, its bottom-right slot directly holds leaf `200`
at `(5,2)`. -/
def c9n : Node ℤ :=
  Node.mk c9b
    (Slot.node (Node.mk (c9b.create_quadrant .BottomLeft)
      (Slot.point ⟨100, ⟨1, 1⟩⟩) .empty .empty .empty))
    (Slot.point ⟨200, ⟨5, 2⟩⟩) .empty .empty

/-- The C9 counterexample query `(1,1)-(6,3)`, which lies inside `c9n`'s
bounds (`Containment(true)`), touching the bottom-left quadrant first. -/
def c9q : Rectangle := Rectangle.new ⟨1, 1⟩ 5 2

/-- C9 is false as stated: on `c9n` and `c9q` the result vector lists the
child-subtree leaf `100` before the node's own leaf `200`, so a leaf
stored directly in the node does not appear before the leaves collected
from its child subtrees. -/
theorem C9_counterexample :
    c9b.relation c9q = .Containment true ∧
    c9n.find_in_bounds c9q = some [⟨100, ⟨1, 1⟩⟩, ⟨200, ⟨5, 2⟩⟩] ∧
    (⟨200, ⟨5, 2⟩⟩ : Spatial ℤ) ∈ c9n.data ∧
    (⟨100, ⟨1, 1⟩⟩ : Spatial ℤ) ∉ c9n.data := by
  refine ⟨by decide, by decide, by decide, by decide⟩

end Quadtree

namespace Quadtree

/-- Witness for the amended C9: a query containing `c9n` entirely takes
the `Containment(false)` branch, whose result is `data_children` with the
node's own leaves first. -/
theorem C9_witness :
    c9n.find_in_bounds (Rectangle.new ⟨-1, -1⟩ 11 11) = some c9n.data_children ∧
    c9n.data_children = c9n.data ++
      slotDataChildren (c9n.quadrant .BottomLeft) ++
      slotDataChildren (c9n.quadrant .BottomRight) ++
      slotDataChildren (c9n.quadrant .TopRight) ++
      slotDataChildren (c9n.quadrant .TopLeft) :=
  (C9_amended_result_order c9n (Rectangle.new ⟨-1, -1⟩ 11 11)).2 (by decide)

end Quadtree

namespace Quadtree

variable {α : Type}

/-- The in-bounds test at the head of `Rectangle::find_quadrant`: the
point lies within the closed box `[min_x, max_x] × [min_y, max_y]`. -/
def Rectangle.containsPoint (r : Rectangle) (p : Point) : Prop :=
  r.min_x ≤ p.x ∧ p.x ≤ r.max_x ∧ r.min_y ≤ p.y ∧ p.y ≤ r.max_y

instance (r : Rectangle) (p : Point) : Decidable (r.containsPoint p) := by
  unfold Rectangle.containsPoint
  infer_instance

theorem Rectangle.find_quadrant_some_containsPoint (r : Rectangle) (p : Point)
    (q : Quadrant) (h : r.find_quadrant p = some q) : r.containsPoint p := by
  unfold Rectangle.find_quadrant at h
  by_cases hc : p.x < r.min_x ∨ p.x > r.max_x ∨ p.y < r.min_y ∨ p.y > r.max_y
  · rw [if_pos hc] at h
    exact absurd h (by simp)
  · push_neg at hc
    exact ⟨hc.1, hc.2.1, hc.2.2.1, hc.2.2.2⟩

mutual

/-- The invariant of spec §3: every leaf stored anywhere below a node has
a position within that node's bounds. -/
def Node.leavesInBounds : Node α → Bool
  | .mk b bl br tr tl =>
    slotLIB b bl && slotLIB b br && slotLIB b tr && slotLIB b tl
  termination_by structural n => n

/-- Slot part of `Node.leavesInBounds`; `b` is the owning node's bounds. -/
def slotLIB : Rectangle → Slot α → Bool
  | _, .empty => true
  | b, .point d => decide (b.containsPoint d.position)
  | _, .node c => c.leavesInBounds
  termination_by structural _ s => s

end

theorem Node.leavesInBounds_quadrant (n : Node α) (q : Quadrant)
    (h : n.leavesInBounds = true) : slotLIB n.bounds (n.quadrant q) = true := by
  match n with
  | .mk b bl br tr tl =>
    rw [Node.leavesInBounds] at h
    simp only [Bool.and_eq_true] at h
    cases q <;> simp only [Node.quadrant, Node.bounds] <;> tauto

theorem Node.leavesInBounds_setQuadrant (n : Node α) (q : Quadrant) (s : Slot α)
    (h : n.leavesInBounds = true) (hs : slotLIB n.bounds s = true) :
    (n.setQuadrant q s).leavesInBounds = true := by
  match n with
  | .mk b bl br tr tl =>
    rw [Node.leavesInBounds] at h
    simp only [Bool.and_eq_true] at h
    simp only [Node.bounds] at hs
    cases q <;> simp only [Node.setQuadrant] <;> rw [Node.leavesInBounds] <;>
      simp only [Bool.and_eq_true] <;> tauto

theorem Node.leavesInBounds_new_bounded (b : Rectangle) :
    (Node.new_bounded (α := α) b).leavesInBounds = true := by
  rw [Node.new_bounded, Node.leavesInBounds]
  rfl

theorem Node.insertF_leavesInBounds (fuel : ℕ) (n : Node α) (d : Spatial α)
    (n' : Node α) (hn : n.leavesInBounds = true)
    (h : Node.insertF fuel n d = some n') : n'.leavesInBounds = true := by
  match fuel with
  | 0 => simp [Node.insertF] at h
  | fuel + 1 =>
    rw [Node.insertF] at h
    rcases hq : n.bounds.find_quadrant d.position with _ | q <;> rw [hq] at h <;>
      simp only at h
    · exact absurd h (by simp)
    · rcases hs : n.quadrant q with _ | old | c <;> rw [hs] at h <;> simp only at h
      · rw [Option.some_inj] at h
        subst h
        refine Node.leavesInBounds_setQuadrant n q _ hn ?_
        simpa [slotLIB] using Rectangle.find_quadrant_some_containsPoint _ _ _ hq
      · rcases hc : Node.insertF fuel (Node.new_bounded (n.bounds.create_quadrant q)) old
          with _ | child <;> rw [hc] at h <;> simp only at h
        · exact absurd h (by simp)
        · rcases Option.map_eq_some'.1 h with ⟨c', hcc, rfl⟩
          have h1 : child.leavesInBounds = true :=
            Node.insertF_leavesInBounds fuel _ old child
              (Node.leavesInBounds_new_bounded _) hc
          have h2 : c'.leavesInBounds = true :=
            Node.insertF_leavesInBounds fuel child d c' h1 hcc
          exact Node.leavesInBounds_setQuadrant n q _ hn (by simpa [slotLIB] using h2)
      · rcases Option.map_eq_some'.1 h with ⟨c', hcc, rfl⟩
        have h1 : c.leavesInBounds = true := by
          have := Node.leavesInBounds_quadrant n q hn
          rw [hs] at this
          simpa [slotLIB] using this
        have h2 : c'.leavesInBounds = true :=
          Node.insertF_leavesInBounds fuel c d c' h1 hcc
        exact Node.leavesInBounds_setQuadrant n q _ hn (by simpa [slotLIB] using h2)

mutual

theorem Node.remove_leavesInBounds (n : Node α) (pt : Point)
    (h : n.leavesInBounds = true) : ((n.remove pt).2).leavesInBounds = true := by
  match n with
  | .mk b bl br tr tl =>
    rw [Node.leavesInBounds] at h
    simp only [Bool.and_eq_true] at h
    unfold Node.remove
    simp only [Node.bounds]
    rcases hq : b.find_quadrant pt with _ | q
    · simp only
      rw [Node.leavesInBounds]
      simp only [Bool.and_eq_true]
      tauto
    · cases q <;> simp only <;> rw [Node.leavesInBounds] <;>
        simp only [Bool.and_eq_true] <;>
        refine ⟨⟨⟨?_, ?_⟩, ?_⟩, ?_⟩ <;>
        first
          | exact slotRemove_leavesInBounds b bl pt h.1.1.1
          | exact slotRemove_leavesInBounds b br pt h.1.1.2
          | exact slotRemove_leavesInBounds b tr pt h.1.2
          | exact slotRemove_leavesInBounds b tl pt h.2
          | exact h.1.1.1
          | exact h.1.1.2
          | exact h.1.2
          | exact h.2

theorem slotRemove_leavesInBounds (b : Rectangle) (s : Slot α) (pt : Point)
    (h : slotLIB b s = true) : slotLIB b (slotRemove s pt).2 = true := by
  match s with
  | .empty => exact h
  | .point d =>
    unfold slotRemove
    by_cases hp : d.position = pt <;> simp [hp, slotLIB] <;> simpa [slotLIB] using h
  | .node m =>
    have := Node.remove_leavesInBounds m pt (by simpa [slotLIB] using h)
    simpa [slotRemove, slotLIB] using this

end

theorem Node.collapse_leavesInBounds (n : Node α) :
    ((n.collapse).2).leavesInBounds = true :=
  Node.leavesInBounds_new_bounded _

mutual

theorem Node.shrink_children_leavesInBounds (n : Node α)
    (h : n.leavesInBounds = true) : n.shrink_children.leavesInBounds = true := by
  match n with
  | .mk b bl br tr tl =>
    rw [Node.leavesInBounds] at h
    simp only [Bool.and_eq_true] at h
    unfold Node.shrink_children
    rw [Node.leavesInBounds]
    simp only [Bool.and_eq_true]
    exact ⟨⟨⟨slotShrink_leavesInBounds b bl h.1.1.1,
      slotShrink_leavesInBounds b br h.1.1.2⟩,
      slotShrink_leavesInBounds b tr h.1.2⟩,
      slotShrink_leavesInBounds b tl h.2⟩

theorem slotShrink_leavesInBounds (b : Rectangle) (s : Slot α)
    (h : slotLIB b s = true) : slotLIB b (slotShrink s) = true := by
  match s with
  | .empty => exact h
  | .point d => rfl
  | .node m =>
    unfold slotShrink
    by_cases hm : m.is_empty = true
    · simp [hm, slotLIB]
    · simp only [hm]
      have := Node.shrink_children_leavesInBounds m (by simpa [slotLIB] using h)
      simpa [slotLIB] using this

end

/-- C3: the leaf-within-bounds invariant — every leaf stored in any node
of the tree lies within that node's bounds — is preserved by every
mutating operation: a completed `insert` whose point lies in the node's
bounds, `remove`, `collapse` and `shrink_children`.  (`find` and
`find_in_bounds` do not modify the tree in the embedding, so they
preserve the invariant trivially.) -/
theorem C3_leaves_within_bounds_invariant :
    (∀ (fuel : ℕ) (n : Node α) (d : Spatial α) (n' : Node α),
      n.leavesInBounds = true → (n.bounds.find_quadrant d.position).isSome →
      Node.insertF fuel n d = some n' → n'.leavesInBounds = true) ∧
    (∀ (n : Node α) (pt : Point), n.leavesInBounds = true →
      ((n.remove pt).2).leavesInBounds = true) ∧
    (∀ n : Node α, ((n.collapse).2).leavesInBounds = true) ∧
    (∀ n : Node α, n.leavesInBounds = true →
      n.shrink_children.leavesInBounds = true) :=
  ⟨fun fuel n d n' hn _ h => Node.insertF_leavesInBounds fuel n d n' hn h,
    Node.remove_leavesInBounds,
    Node.collapse_leavesInBounds,
    Node.shrink_children_leavesInBounds⟩

/-- Witness for C3: the invariant holds after the concrete insertion of
`(0, (0.1, 0.2))` into the empty node `c2n0` and after a removal from the
resulting node. -/
theorem C3_witness :
    c2n1.leavesInBounds = true ∧
    ((c2n1.remove ⟨1/10, 2/10⟩).2).leavesInBounds = true :=
  have h1 : c2n1.leavesInBounds = true :=
    C3_leaves_within_bounds_invariant.1 20 c2n0 ⟨0, ⟨1/10, 2/10⟩⟩ c2n1
      (by decide) (by decide) (by rfl)
  ⟨h1, C3_leaves_within_bounds_invariant.2.1 c2n1 ⟨1/10, 2/10⟩ h1⟩

end Quadtree

namespace Quadtree

variable {α : Type}

/-- All leaves reachable through one slot: none for an empty slot, the
single leaf for a leaf slot, the child's `data_children` for a node
slot. -/
def slotLeaves : Slot α → List (Spatial α)
  | .empty => []
  | .point d => [d]
  | .node c => c.data_children

theorem mem_slotLeaves (s : Slot α) (d : Spatial α) :
    d ∈ slotLeaves s ↔ d ∈ s.dataOf ∨ d ∈ slotDataChildren s := by
  cases s <;> simp [slotLeaves, Slot.dataOf, slotDataChildren]

theorem Node.mem_data_children_iff (n : Node α) (d : Spatial α) :
    d ∈ n.data_children ↔
      d ∈ slotLeaves (n.quadrant .BottomLeft) ∨
      d ∈ slotLeaves (n.quadrant .BottomRight) ∨
      d ∈ slotLeaves (n.quadrant .TopRight) ∨
      d ∈ slotLeaves (n.quadrant .TopLeft) := by
  match n with
  | .mk b bl br tr tl =>
    rw [Node.data_children]
    simp only [Node.quadrant, Node.data, mem_slotLeaves, List.mem_append]
    tauto

theorem Node.setQuadrant_quadrant_self (n : Node α) (q : Quadrant) :
    n.setQuadrant q (n.quadrant q) = n := by
  cases n <;> cases q <;> rfl

mutual

/-- The placement invariant that insertion maintains: a leaf stored in
slot `q` of a node — directly or anywhere below a child in slot `q` —
classifies to `q` under the node's bounds, and a child in slot `q` is
bounded by the node's `q` sub-rectangle. -/
def Node.wf : Node α → Bool
  | .mk b bl br tr tl =>
    slotWF b .BottomLeft bl && slotWF b .BottomRight br &&
      slotWF b .TopRight tr && slotWF b .TopLeft tl
  termination_by structural n => n

/-- Slot part of `Node.wf`. -/
def slotWF : Rectangle → Quadrant → Slot α → Bool
  | _, _, .empty => true
  | b, q, .point d => decide (b.find_quadrant d.position = some q)
  | b, q, .node c =>
    decide (c.bounds = b.create_quadrant q) && c.wf &&
      c.data_children.all (fun d => decide (b.find_quadrant d.position = some q))
  termination_by structural _ _ s => s

end

theorem Node.wf_quadrant (n : Node α) (q : Quadrant) (h : n.wf = true) :
    slotWF n.bounds q (n.quadrant q) = true := by
  match n with
  | .mk b bl br tr tl =>
    rw [Node.wf] at h
    simp only [Bool.and_eq_true] at h
    cases q <;> simp only [Node.quadrant, Node.bounds] <;> tauto

mutual

theorem Node.find_some_mem (n : Node α) (pt : Point) (x : α)
    (h : n.find pt = some x) : (⟨x, pt⟩ : Spatial α) ∈ n.data_children := by
  match n with
  | .mk b bl br tr tl =>
    rw [Node.find] at h
    rcases hq : b.find_quadrant pt with _ | q <;> rw [hq] at h
    · simp at h
    · rw [Node.mem_data_children_iff]
      simp only [Node.quadrant]
      cases q <;> simp only at h
      · exact Or.inl (slotFind_some_mem bl pt x h)
      · exact Or.inr (Or.inl (slotFind_some_mem br pt x h))
      · exact Or.inr (Or.inr (Or.inl (slotFind_some_mem tr pt x h)))
      · exact Or.inr (Or.inr (Or.inr (slotFind_some_mem tl pt x h)))

theorem slotFind_some_mem (s : Slot α) (pt : Point) (x : α)
    (h : slotFind s pt = some x) : (⟨x, pt⟩ : Spatial α) ∈ slotLeaves s := by
  match s with
  | .empty => exact absurd h (by simp [slotFind])
  | .point d =>
    rw [slotFind] at h
    by_cases hp : d.position = pt
    · rw [if_pos hp, Option.some_inj] at h
      cases d
      cases hp
      cases h
      simp [slotLeaves]
    · rw [if_neg hp] at h
      exact absurd h (by simp)
  | .node m => exact Node.find_some_mem m pt x (by simpa [slotFind] using h)

end

mutual

theorem Node.wf_mem_find (n : Node α) (pt : Point) (x : α) (hwf : n.wf = true)
    (hm : (⟨x, pt⟩ : Spatial α) ∈ n.data_children) : n.find pt = some x := by
  match n with
  | .mk b bl br tr tl =>
    rw [Node.mem_data_children_iff] at hm
    simp only [Node.quadrant] at hm
    rw [Node.find]
    rcases hm with hm | hm | hm | hm
    · have h := slotWF_mem_find b .BottomLeft bl pt x
        (by simpa [Node.bounds] using Node.wf_quadrant (.mk b bl br tr tl) .BottomLeft hwf) hm
      rw [h.1]
      exact h.2
    · have h := slotWF_mem_find b .BottomRight br pt x
        (by simpa [Node.bounds] using Node.wf_quadrant (.mk b bl br tr tl) .BottomRight hwf) hm
      rw [h.1]
      exact h.2
    · have h := slotWF_mem_find b .TopRight tr pt x
        (by simpa [Node.bounds] using Node.wf_quadrant (.mk b bl br tr tl) .TopRight hwf) hm
      rw [h.1]
      exact h.2
    · have h := slotWF_mem_find b .TopLeft tl pt x
        (by simpa [Node.bounds] using Node.wf_quadrant (.mk b bl br tr tl) .TopLeft hwf) hm
      rw [h.1]
      exact h.2

theorem slotWF_mem_find (b : Rectangle) (q : Quadrant) (s : Slot α) (pt : Point)
    (x : α) (hwf : slotWF b q s = true)
    (hm : (⟨x, pt⟩ : Spatial α) ∈ slotLeaves s) :
    b.find_quadrant pt = some q ∧ slotFind s pt = some x := by
  match s with
  | .empty => exact absurd hm (by simp [slotLeaves])
  | .point d =>
    match d with
    | ⟨dd, dp⟩ =>
      have hd : x = dd ∧ pt = dp := by
        simpa [slotLeaves, Spatial.mk.injEq] using hm
      rcases hd with ⟨h1, h2⟩
      subst h1
      subst h2
      rw [slotWF] at hwf
      refine ⟨by simpa using hwf, ?_⟩
      simp [slotFind]
  | .node m =>
    rw [slotWF] at hwf
    simp only [Bool.and_eq_true] at hwf
    have hq : b.find_quadrant pt = some q := by
      have := List.all_eq_true.1 hwf.2 ⟨x, pt⟩ (by simpa [slotLeaves] using hm)
      simpa using this
    refine ⟨hq, ?_⟩
    rw [slotFind]
    exact Node.wf_mem_find m pt x hwf.1.2 (by simpa [slotLeaves] using hm)

end

/-- C4: `Node::remove` returns `none` and leaves the node unchanged when
the point is out of bounds, when the target slot is empty, or when the
slot holds a leaf at a different position (put back unchanged); a child
node in the slot is recursed into and always re-stored without being
collapsed; and, on a well-placed tree (the invariant insertion
maintains), it returns `some payload` exactly when a leaf at exactly
position `P` exists in the tree. -/
theorem C4_remove_cases (n : Node α) (P : Point) :
    (n.bounds.find_quadrant P = none → n.remove P = (none, n)) ∧
    (∀ q, n.bounds.find_quadrant P = some q → n.quadrant q = Slot.empty →
      n.remove P = (none, n)) ∧
    (∀ q d, n.bounds.find_quadrant P = some q → n.quadrant q = Slot.point d →
      d.position ≠ P → n.remove P = (none, n)) ∧
    (∀ q c, n.bounds.find_quadrant P = some q → n.quadrant q = Slot.node c →
      n.remove P = ((c.remove P).1, n.setQuadrant q (Slot.node (c.remove P).2))) ∧
    (n.wf = true → ∀ x : α,
      ((n.remove P).1 = some x ↔ (⟨x, P⟩ : Spatial α) ∈ n.data_children)) := by
  refine ⟨?_, ?_, ?_, ?_, ?_⟩
  · intro h
    rw [Node.remove_eq, h]
  · intro q hq hs
    rw [Node.remove_eq, hq]
    simp only
    rw [hs]
    simp only [slotRemove]
    rw [← hs, Node.setQuadrant_quadrant_self]
  · intro q d hq hs hne
    rw [Node.remove_eq, hq]
    simp only
    rw [hs]
    simp only [slotRemove, if_neg hne]
    rw [← hs, Node.setQuadrant_quadrant_self]
  · intro q c hq hs
    rw [Node.remove_eq, hq]
    simp only
    rw [hs]
    simp only [slotRemove]
  · intro hwf x
    rw [Node.remove_fst_eq_find]
    exact ⟨Node.find_some_mem n P x, Node.wf_mem_find n P x hwf⟩

/-- Witness for C4: on the node `c2wn` (one leaf `(1, (1,1))` in the
bottom-left slot), removing at `(1,2)` is a no-op returning `none`, and
the removal result at `(1,1)` is `some 1` iff that leaf is stored. -/
theorem C4_witness :
    c2wn.remove ⟨1, 2⟩ = (none, c2wn) ∧
    ((c2wn.remove ⟨1, 1⟩).1 = some 1 ↔
      (⟨1, ⟨1, 1⟩⟩ : Spatial ℤ) ∈ c2wn.data_children) :=
  ⟨(C4_remove_cases c2wn ⟨1, 2⟩).2.2.1 .BottomLeft ⟨1, ⟨1, 1⟩⟩
      (by decide) (by rfl) (by decide),
    (C4_remove_cases c2wn ⟨1, 1⟩).2.2.2.2 (by decide) 1⟩

end Quadtree

namespace Quadtree

theorem reduceOption_map_length_eq_filter (l : List Point) (f : Point → Option Quadrant) :
    ((l.map f).reduceOption).length =
      (l.filter (fun c => (f c).isSome)).length := by
  induction l with
  | nil => rfl
  | cons a as ih =>
    cases hf : f a <;>
      simp [List.reduceOption_cons_of_some, hf, ih, List.filter_cons]

/-- C6: the corner-containment classification of `Rectangle::relation`.
When no corner of `other` lies inside `self`, the count of `self`'s
corners inside `other` decides: 0 is Disjoint, 1 to 3 is Intersection, 4
is Containment(false).  When some but not all corners of `other` lie
inside `self`, the relation is Intersection; when all four do, it is
Containment(true). -/
theorem C6_relation_corner_classification (r other : Rectangle) :
    ((∀ c ∈ other.corners, (r.find_quadrant c).isNone = true) →
      (((r.corners.filter (fun c => (other.find_quadrant c).isSome)).length = 0 →
          r.relation other = .Disjoint) ∧
        (∀ k : ℕ,
          (r.corners.filter (fun c => (other.find_quadrant c).isSome)).length = k →
          1 ≤ k → k ≤ 3 → r.relation other = .Intersection) ∧
        ((r.corners.filter (fun c => (other.find_quadrant c).isSome)).length = 4 →
          r.relation other = .Containment false))) ∧
    ((∃ c ∈ other.corners, (r.find_quadrant c).isSome = true) →
      (∃ c ∈ other.corners, (r.find_quadrant c).isNone = true) →
      r.relation other = .Intersection) ∧
    ((∀ c ∈ other.corners, (r.find_quadrant c).isSome = true) →
      r.relation other = .Containment true) := by
  refine ⟨?_, ?_, ?_⟩
  · intro hnone
    have hall : ((other.corners.map (fun c => r.find_quadrant c)).all
        (fun q => q.isNone)) = true := by
      rw [List.all_eq_true]
      intro q hq
      rcases List.mem_map.1 hq with ⟨c, hc, rfl⟩
      exact hnone c hc
    have hlen := reduceOption_map_length_eq_filter r.corners
      (fun c => other.find_quadrant c)
    refine ⟨?_, ?_, ?_⟩
    · intro h0
      rw [Rectangle.relation, if_pos hall, hlen, h0]
    · intro k hk h1 h3
      have hcases : k = 1 ∨ k = 2 ∨ k = 3 := by omega
      rcases hcases with rfl | rfl | rfl <;>
        rw [Rectangle.relation, if_pos hall, hlen, hk]
    · intro h4
      rw [Rectangle.relation, if_pos hall, hlen, h4]
  · intro hsome hnone
    rcases hsome with ⟨cs, hcs, hs⟩
    rcases hnone with ⟨cn, hcn, hn⟩
    have h1 : ¬ ((other.corners.map (fun c => r.find_quadrant c)).all
        (fun q => q.isNone)) = true := by
      intro hcontra
      have := List.all_eq_true.1 hcontra (r.find_quadrant cs)
        (List.mem_map_of_mem _ hcs)
      rw [Option.isNone_iff_eq_none] at this
      rw [this] at hs
      simp at hs
    have h2 : ¬ ((other.corners.map (fun c => r.find_quadrant c)).all
        (fun q => q.isSome)) = true := by
      intro hcontra
      have := List.all_eq_true.1 hcontra (r.find_quadrant cn)
        (List.mem_map_of_mem _ hcn)
      rw [Option.isNone_iff_eq_none] at hn
      rw [hn] at this
      simp at this
    rw [Rectangle.relation, if_neg h1, if_neg h2]
  · intro hsome
    have h1 : ¬ ((other.corners.map (fun c => r.find_quadrant c)).all
        (fun q => q.isNone)) = true := by
      intro hcontra
      have hmem : (⟨other.min_x, other.min_y⟩ : Point) ∈ other.corners := by
        simp [Rectangle.corners]
      have ha := List.all_eq_true.1 hcontra (r.find_quadrant ⟨other.min_x, other.min_y⟩)
        (List.mem_map_of_mem _ hmem)
      have hb := hsome _ hmem
      rw [Option.isNone_iff_eq_none] at ha
      rw [ha] at hb
      simp at hb
    have h2 : ((other.corners.map (fun c => r.find_quadrant c)).all
        (fun q => q.isSome)) = true := by
      rw [List.all_eq_true]
      intro q hq
      rcases List.mem_map.1 hq with ⟨c, hc, rfl⟩
      exact hsome c hc
    rw [Rectangle.relation, if_neg h1, if_pos h2]

/-- Witness for C6: `(0,0)-(5,5)` fully contains `(1,1)-(4,4)`
(Containment(true)) and is disjoint from `(-9,-9)-(-5,-5)`. -/
theorem C6_witness :
    (Rectangle.new ⟨0, 0⟩ 5 5).relation (Rectangle.new ⟨1, 1⟩ 3 3) =
      .Containment true ∧
    (Rectangle.new ⟨0, 0⟩ 5 5).relation (Rectangle.new ⟨-9, -9⟩ 4 4) =
      .Disjoint :=
  ⟨(C6_relation_corner_classification (Rectangle.new ⟨0, 0⟩ 5 5)
      (Rectangle.new ⟨1, 1⟩ 3 3)).2.2 (by decide),
    ((C6_relation_corner_classification (Rectangle.new ⟨0, 0⟩ 5 5)
      (Rectangle.new ⟨-9, -9⟩ 4 4)).1 (by decide)).1 (by decide)⟩

end Quadtree

namespace Quadtree

variable {α : Type}

mutual

theorem Node.collapseList_perm (n : Node α) :
    n.collapseList.Perm n.data_children := by
  match n with
  | .mk b bl br tr tl =>
    rw [Node.collapseList, Node.data_children, Node.data]
    rw [← Multiset.coe_eq_coe]
    have e1 := Multiset.coe_eq_coe.2 (slotCollapse_perm bl)
    have e2 := Multiset.coe_eq_coe.2 (slotCollapse_perm br)
    have e3 := Multiset.coe_eq_coe.2 (slotCollapse_perm tr)
    have e4 := Multiset.coe_eq_coe.2 (slotCollapse_perm tl)
    simp only [← Multiset.coe_add] at e1 e2 e3 e4 ⊢
    rw [e1, e2, e3, e4]
    abel

theorem slotCollapse_perm (s : Slot α) :
    (slotCollapse s).Perm (s.dataOf ++ slotDataChildren s) := by
  match s with
  | .empty => exact List.Perm.refl _
  | .point d => exact List.Perm.refl _
  | .node m =>
    rw [slotCollapse, Slot.dataOf, slotDataChildren]
    simpa using Node.collapseList_perm m

end

theorem Node.len_new_bounded (b : Rectangle) :
    (Node.new_bounded (α := α) b).len = 0 := rfl

theorem Node.len_setQuadrant (n : Node α) (q : Quadrant) (s : Slot α) :
    (n.setQuadrant q s).len + slotLen (n.quadrant q) = n.len + slotLen s := by
  match n with
  | .mk b bl br tr tl =>
    cases q <;>
      simp only [Node.setQuadrant, Node.quadrant, Node.len] <;> omega

mutual

theorem Node.len_eq_data_children_length (n : Node α) :
    n.len = n.data_children.length := by
  match n with
  | .mk b bl br tr tl =>
    rw [Node.len, Node.data_children, Node.data]
    have h1 := slotLen_eq_length bl
    have h2 := slotLen_eq_length br
    have h3 := slotLen_eq_length tr
    have h4 := slotLen_eq_length tl
    simp only [List.length_append]
    omega

theorem slotLen_eq_length (s : Slot α) :
    slotLen s = s.dataOf.length + (slotDataChildren s).length := by
  match s with
  | .empty => rfl
  | .point d => rfl
  | .node m =>
    rw [slotLen, Slot.dataOf, slotDataChildren]
    simpa using Node.len_eq_data_children_length m

end

theorem Node.insertF_len (fuel : ℕ) (n : Node α) (d : Spatial α) (n' : Node α)
    (h : Node.insertF fuel n d = some n') : n'.len = n.len + 1 := by
  match fuel with
  | 0 => simp [Node.insertF] at h
  | fuel + 1 =>
    rw [Node.insertF] at h
    rcases hq : n.bounds.find_quadrant d.position with _ | q <;> rw [hq] at h <;>
      simp only at h
    · exact absurd h (by simp)
    · rcases hs : n.quadrant q with _ | old | c <;> rw [hs] at h <;> simp only at h
      · rw [Option.some_inj] at h
        subst h
        have := Node.len_setQuadrant n q (Slot.point d)
        rw [hs] at this
        simp only [slotLen] at this
        omega
      · rcases hc : Node.insertF fuel (Node.new_bounded (n.bounds.create_quadrant q)) old
          with _ | child <;> rw [hc] at h <;> simp only at h
        · exact absurd h (by simp)
        · rcases Option.map_eq_some'.1 h with ⟨c', hcc, rfl⟩
          have h1 : child.len = 1 := by
            have := Node.insertF_len fuel _ old child hc
            rw [Node.len_new_bounded] at this
            omega
          have h2 : c'.len = 2 := by
            have := Node.insertF_len fuel child d c' hcc
            omega
          have h3 := Node.len_setQuadrant n q (Slot.node c')
          rw [hs] at h3
          simp only [slotLen] at h3
          omega
      · rcases Option.map_eq_some'.1 h with ⟨c', hcc, rfl⟩
        have h1 := Node.insertF_len fuel c d c' hcc
        have h2 := Node.len_setQuadrant n q (Slot.node c')
        rw [hs] at h2
        simp only [slotLen] at h2
        omega

end Quadtree

namespace Quadtree

variable {α : Type}

theorem foldlM_insertF_find_preserve (fuel : ℕ) (l : List (Spatial α))
    (n0 r : Node α) (P : Point)
    (hnot : ∀ d ∈ l, d.position ≠ P)
    (h : l.foldlM (fun n d => Node.insertF fuel n d) n0 = some r) :
    r.find P = n0.find P := by
  match l with
  | [] =>
    simp only [List.foldlM_nil] at h
    rcases h
    rfl
  | a :: as =>
    rw [List.foldlM_cons] at h
    rcases Option.bind_eq_some.1 h with ⟨n1, h1, h2⟩
    have e1 : n1.find P = n0.find P :=
      Node.insertF_find_other fuel n0 a n1 P (hnot a (by simp)) h1
    have e2 : r.find P = n1.find P :=
      foldlM_insertF_find_preserve fuel as n1 r P
        (fun d hd => hnot d (by simp [hd])) h2
    rw [e2, e1]

theorem foldlM_insertF_find_mem (fuel : ℕ) (l : List (Spatial α))
    (n0 r : Node α) (v : α) (P : Point)
    (hdist : l.Pairwise (fun a b => a.position ≠ b.position))
    (hmem : (⟨v, P⟩ : Spatial α) ∈ l)
    (h0 : n0.find P = none)
    (h : l.foldlM (fun n d => Node.insertF fuel n d) n0 = some r) :
    r.find P = some v := by
  match l with
  | [] => simp at hmem
  | a :: as =>
    rw [List.foldlM_cons] at h
    rcases Option.bind_eq_some.1 h with ⟨n1, h1, h2⟩
    rw [List.pairwise_cons] at hdist
    rcases List.mem_cons.1 hmem with heq | hmem'
    · have hfind : n1.find P = some v := by
        have := Node.insertF_find_self fuel n0 a n1 h1
        rw [← heq] at this
        exact this
      have hnot : ∀ d ∈ as, d.position ≠ P := by
        intro d hd hcontra
        have hne := hdist.1 d hd
        rw [← heq] at hne
        exact hne (hcontra.symm ▸ rfl)
      rw [foldlM_insertF_find_preserve fuel as n1 r P hnot h2]
      exact hfind
    · have hne : a.position ≠ P := by
        have := hdist.1 ⟨v, P⟩ hmem'
        simpa using this
      have h0' : n1.find P = none := by
        rw [Node.insertF_find_other fuel n0 a n1 P hne h1]
        exact h0
      exact foldlM_insertF_find_mem fuel as n1 r v P hdist.2 hmem' h0' h2

theorem foldlM_insertF_len (fuel : ℕ) (l : List (Spatial α)) (n0 r : Node α)
    (h : l.foldlM (fun n d => Node.insertF fuel n d) n0 = some r) :
    r.len = n0.len + l.length := by
  match l with
  | [] =>
    simp only [List.foldlM_nil] at h
    rcases h
    simp
  | a :: as =>
    rw [List.foldlM_cons] at h
    rcases Option.bind_eq_some.1 h with ⟨n1, h1, h2⟩
    have e1 : n1.len = n0.len + 1 := Node.insertF_len fuel n0 a n1 h1
    have e2 := foldlM_insertF_len fuel as n1 r h2
    simp only [List.length_cons]
    omega

/-- C5: `collapse` detaches and returns every stored leaf (the returned
list is a permutation of `data_children`), and reinserting all returned
leaves as `QuadTree::shrink` does — when every insertion completes —
yields a tree with the same `len` and the same `find_exact` result at
every position that held data before the collapse.  The pairwise
distinctness hypothesis is the duplicate-freedom the wrapper's checked
insertion enforces (a duplicated position would make the re-insertion
recurse forever). -/
theorem C5_collapse_reinsert_roundtrip (fuel : ℕ) (t t' : QuadTree α)
    (hdist : t.root.data_children.Pairwise (fun a b => a.position ≠ b.position))
    (hshrink : QuadTree.shrink fuel t = some t') :
    ((t.root.collapse).1).Perm t.root.data_children ∧
    t'.len = t.len ∧
    (∀ (P : Point) (v : α), t.find_exact P = some v → t'.find_exact P = some v) := by
  have hperm : (t.root.collapse).1.Perm t.root.data_children := by
    simpa [Node.collapse] using Node.collapseList_perm t.root
  rw [QuadTree.shrink] at hshrink
  simp only [Node.collapse] at hshrink
  rcases Option.map_eq_some'.1 hshrink with ⟨r, hr, heq⟩
  subst heq
  refine ⟨hperm, ?_, ?_⟩
  · have h1 := foldlM_insertF_len fuel t.root.collapseList
      (Node.new_bounded t.root.bounds) r hr
    rw [Node.len_new_bounded] at h1
    have h2 := (Node.collapseList_perm t.root).length_eq
    have h3 := Node.len_eq_data_children_length t.root
    simp only [QuadTree.len]
    omega
  · intro P v hfind
    have hmem : (⟨v, P⟩ : Spatial α) ∈ t.root.data_children :=
      Node.find_some_mem t.root P v hfind
    have hmem' : (⟨v, P⟩ : Spatial α) ∈ t.root.collapseList :=
      (Node.collapseList_perm t.root).mem_iff.2 hmem
    have hdist' : t.root.collapseList.Pairwise
        (fun a b => a.position ≠ b.position) :=
      ((Node.collapseList_perm t.root).pairwise_iff
        (fun h hc => h hc.symm)).2 hdist
    have h0 : (Node.new_bounded (α := α) t.root.bounds).find P = none :=
      Node.find_new_bounded _ _
    have := foldlM_insertF_find_mem fuel t.root.collapseList
      (Node.new_bounded t.root.bounds) r v P hdist' hmem' h0 hr
    simpa [QuadTree.find_exact] using this

/-- The C8 scenario tree after `shrink` with fuel 30, for the C5
witness. -/
def c5t' : QuadTree ℤ := (QuadTree.shrink 30 c8t2).getD c8t2

/-- Witness for C5 on the two-leaf tree `c8t2`. -/
theorem C5_witness :
    ((c8t2.root.collapse).1).Perm c8t2.root.data_children ∧
    c5t'.len = c8t2.len ∧
    (∀ (P : Point) (v : ℤ), c8t2.find_exact P = some v →
      c5t'.find_exact P = some v) :=
  C5_collapse_reinsert_roundtrip 30 c8t2 c5t' (by decide) (by rfl)

end Quadtree
